import Mathlib

/-!
Shallow embedding of the absfs/sftpfs repository (Go): the client adapter
(`FileSystem`, `File`), the connection driver (`New`), and the server
handlers (`ServerHandler`, `listerat`, `linkInfo`).  Machine integers are
modelled as `Nat`/`Int`; Go errors as `Option`/`Except` values; the remote
SFTP transport as explicit oracles/state so each Go function becomes a pure
Lean function over them.
-/

namespace Sftpfs

/-! ### Go `os` open-flag constants (linux values, as used by the repo) -/

def O_RDONLY : Nat := 0
def O_WRONLY : Nat := 1
def O_RDWR : Nat := 2
def O_CREATE : Nat := 64
def O_EXCL : Nat := 128
def O_TRUNC : Nat := 512
def O_APPEND : Nat := 1024

/-- Value of `os.ModeSymlink` (bit 27 of Go's `os.FileMode`). -/
def ModeSymlink : Nat := 2 ^ 27

/-! ### Directory entries / file infos

`os.FileInfo` values are modelled by the fields the repository reads:
the name (a byte string, `List Nat`) and the directory bit. -/

structure FileInfoM where
  name : List Nat
  isDir : Bool
  deriving Repr, DecidableEq

/-! ### `File.Readdir` (src/unnamed/part_009, lines 77-109)

The handle state after the listing has been captured:
`dirEntries` (non-nil cache) and `readdirPos`. -/

structure DirHandle where
  dirEntries : List FileInfoM
  readdirPos : Nat
  deriving Repr, DecidableEq

/-- The only error `Readdir` produces after capture: `io.EOF`. -/
inductive RdErr where
  | eof
  deriving Repr, DecidableEq

/-- Translation of `File.Readdir(n)` on a handle whose listing is already captured
(`f.dirEntries != nil`), translated line by line from part_009:
`n <= 0` returns every remaining entry and moves the cursor to the end;
`n > 0` returns up to `n` entries from the cursor, or `(nil, io.EOF)`
when nothing remains. -/
def readdir (f : DirHandle) (n : Int) : (List FileInfoM × Option RdErr) × DirHandle :=
  if n ≤ 0 then
    ((f.dirEntries.drop f.readdirPos, none),
      { f with readdirPos := f.dirEntries.length })
  else
    let remaining := f.dirEntries.length - f.readdirPos
    if remaining = 0 then
      (([], some .eof), f)
    else
      let m := min n.toNat remaining
      (((f.dirEntries.drop f.readdirPos).take m, none),
        { f with readdirPos := f.readdirPos + m })

/-! ### `listerat.ListAt` (src/server_handlers.go, lines 255-265) -/

/-- The error value `io.EOF` as returned by `ListAt`. -/
inductive IOErr where
  | eof
  deriving Repr, DecidableEq

/-- Translation of `listerat.ListAt(ls, offset)`: `bufLen` is `len(ls)`; the result is
`(n, copied, err)` where `copied` are the entries written into `ls`
(Go's `copy` transfers `min(len(ls), len(src))` elements). -/
def listAt (entries : List FileInfoM) (bufLen : Nat) (offset : Nat) :
    Nat × List FileInfoM × Option IOErr :=
  if entries.length ≤ offset then
    (0, [], some .eof)
  else
    let src := entries.drop offset
    let n := min bufLen src.length
    if n < bufLen then
      (n, src.take bufLen, some .eof)
    else
      (n, src.take bufLen, none)

/-! ### `ServerHandler.Filewrite` flag derivation (src/server_handlers.go, lines 51-78) -/

/-- The SFTP protocol open bits the handler reads from `r.Pflags()`. -/
structure Pflags where
  read : Bool
  write : Bool
  append : Bool
  trunc : Bool
  excl : Bool
  deriving Repr, DecidableEq

/-- The flag computation inside `Filewrite`, translated statement by
statement: start from `O_WRONLY|O_CREATE`, or in the append/trunc/excl
bits, then overwrite the whole value with `O_RDWR|O_CREATE` when both
read and write are requested. -/
def filewriteFlags (p : Pflags) : Nat :=
  let flags := O_WRONLY ||| O_CREATE
  let flags := if p.append then flags ||| O_APPEND else flags
  let flags := if p.trunc then flags ||| O_TRUNC else flags
  let flags := if p.excl then flags ||| O_EXCL else flags
  if p.read && p.write then O_RDWR ||| O_CREATE else flags

/-! ### `ServerHandler.handleList` (src/server_handlers.go, lines 167-185)

Go's `entries[i].Name() < entries[j].Name()` compares strings byte-wise;
`lexLt` is that comparison on byte lists. -/

/-- Byte-wise lexicographic strict order on names, as Go's string `<`. -/
def lexLt : List Nat → List Nat → Bool
  | [], [] => false
  | [], _ :: _ => true
  | _ :: _, [] => false
  | a :: as, b :: bs => if a < b then true else if b < a then false else lexLt as bs

/-- Non-strict byte-wise order: `a` before-or-equal `b` iff not `b < a`. -/
def lexLe (a b : List Nat) : Prop := lexLt b a = false

instance : DecidableRel lexLe := fun a b => by
  unfold lexLe; infer_instance

/-- Comparator used by `sort.Slice` in `handleList`, lifted to entries. -/
def entryLe (a b : FileInfoM) : Prop := lexLe a.name b.name

instance : DecidableRel entryLe := fun a b => by
  unfold entryLe; infer_instance

/-- Error kinds a handler can surface; only identity matters here. -/
inductive FxErr where
  | openErr
  | readdirErr
  | unsupported
  | backingErr
  deriving Repr, DecidableEq

/-- Translation of `handleList`: open the directory (its captured listing is the
`dirRes` oracle), read all entries with `Readdir(-1)`, sort ascending by
name, and return them as a `listerat`. -/
def handleList (dirRes : Except FxErr (List FileInfoM)) : Except FxErr (List FileInfoM) :=
  match dirRes with
  | .error e => .error e
  | .ok entries => .ok (List.insertionSort entryLe entries)

/-! ### `linkInfo` and `ServerHandler.handleReadlink`
(src/server_handlers.go, lines 197-210 and 268-277) -/

/-- Translation of Go's `path.Base` on byte strings: empty input gives `"."`;
strip trailing slashes; keep everything after the last slash; if nothing
is left the path was all slashes and the result is `"/"`.  47 and 46 are
the bytes of the slash and the dot. -/
def pathBase (s : List Nat) : List Nat :=
  if s.isEmpty then [46]
  else
    let t := (s.reverse.dropWhile (fun c => c = 47)).reverse
    let b := (t.reverse.takeWhile (fun c => c ≠ 47)).reverse
    if b.isEmpty then [47] else b

/-- A `linkInfo{name: target}` value: the struct field holds the raw target. -/
structure LinkInfo where
  name : List Nat
  deriving Repr, DecidableEq

/-- Method `linkInfo.Name()`: returns `path.Base(l.name)`. -/
def LinkInfo.goName (l : LinkInfo) : List Nat := pathBase l.name

/-- Method `linkInfo.Mode()`: returns `os.ModeSymlink | 0777`. -/
def LinkInfo.goMode (_ : LinkInfo) : Nat := ModeSymlink ||| 0o777

/-- Translation of `handleReadlink`: without symlink capability return the
unsupported error; otherwise call the backing `Readlink` (its result is the
`readlinkRes` oracle) and wrap the target in a single `linkInfo` entry. -/
def handleReadlink (symCap : Bool) (readlinkRes : Except FxErr (List Nat)) :
    Except FxErr (List LinkInfo) :=
  if !symCap then .error .unsupported
  else
    match readlinkRes with
    | .error e => .error e
    | .ok target => .ok [{ name := target }]

/-! ### `FileSystem.RemoveAll` / `removeAllDir` (src/sftpfs.go, lines 388-430)

The remote tree visible to `Stat`/`ReadDir` is an inductive node; the
functions below produce the sequence of `Remove(path)` calls the Go code
issues.  Paths are byte strings; `47` is the slash byte. -/

inductive FNode where
  | file : FNode
  | dir : List (List Nat × FNode) → FNode
  deriving Repr

/-- Error returned by `RemoveAll` when the initial `Stat` fails:
`wrapError("RemoveAll.Stat", path, err)`. -/
inductive RmErr where
  | statErr (path : List Nat)
  deriving Repr, DecidableEq

mutual

/-- Translation of `removeAllDir`: read the directory, remove each entry in
listing order (recursing into subdirectories), then remove the directory
itself.  The result is the ordered trace of `Remove` calls. -/
def removeAllDir (path : List Nat) : FNode → List (List Nat)
  | .file => [path]
  | .dir children => removeAllDirList path children ++ [path]

/-- Helper for the `for _, entry := range entries` loop of `removeAllDir`. -/
def removeAllDirList (path : List Nat) : List (List Nat × FNode) → List (List Nat)
  | [] => []
  | (name, node) :: rest =>
    (match node with
     | .dir cs => removeAllDir (path ++ [47] ++ name) (.dir cs)
     | .file => [path ++ [47] ++ name]) ++ removeAllDirList path rest

end

/-- Translation of `RemoveAll(path)`: `statRes` is what `fs.client.Stat(path)`
finds (`none` when the path does not exist).  A failed stat is returned as
a wrapped error; a file is removed directly; a directory goes through
`removeAllDir`.  On success the value is the trace of `Remove` calls. -/
def removeAll (path : List Nat) (statRes : Option FNode) :
    Except RmErr (List (List Nat)) :=
  match statRes with
  | none => .error (.statErr path)
  | some .file => .ok [path]
  | some (.dir children) => .ok (removeAllDir path (.dir children))

/-! ### `FileSystem.OpenFile` (src/sftpfs.go, lines 298-313)

The remote side is a small state: whether the open and the chmod succeed,
the per-path mode table, and the number of handles the client holds open. -/

/-- Calls the adapter makes against the transport during `OpenFile`. -/
inductive CEvent where
  | openCall (name : List Nat) (flag : Nat)
  | chmodCall (name : List Nat) (perm : Nat)
  | closeCall
  deriving Repr, DecidableEq

structure RemoteState where
  openOk : Bool
  chmodOk : Bool
  modes : List Nat → Nat
  handles : Nat

/-- Transport `Chmod`: on success the path's mode becomes `perm`. -/
def remoteChmod (r : RemoteState) (name : List Nat) (perm : Nat) : Bool × RemoteState :=
  if r.chmodOk then
    (true, { r with modes := fun p => if p = name then perm else r.modes p })
  else
    (false, r)

/-- Translation of `FileSystem.OpenFile`: open the remote file; when the flag
carries `O_CREATE`, issue a chmod, and on chmod failure close the
just-opened handle before returning the error.  The result is the opened
path (`some name`) or `none`, the final remote state, and the call trace. -/
def fsOpenFile (r : RemoteState) (name : List Nat) (flag : Nat) (perm : Nat) :
    Option (List Nat) × RemoteState × List CEvent :=
  if !r.openOk then
    (none, r, [.openCall name flag])
  else
    let r1 := { r with handles := r.handles + 1 }
    if flag &&& O_CREATE ≠ 0 then
      match remoteChmod r1 name perm with
      | (true, r2) => (some name, r2, [.openCall name flag, .chmodCall name perm])
      | (false, r2) =>
        (none, { r2 with handles := r2.handles - 1 },
          [.openCall name flag, .chmodCall name perm, .closeCall])
    else
      (some name, r1, [.openCall name flag])

/-! ### Connection driver `New` (src/sftpfs.go, lines 209-277) -/

/-- What one connection attempt does: the TCP/SSH dial fails, the SFTP
subsystem creation fails, or everything succeeds. -/
inductive Outcome where
  | dialFail
  | sftpFail
  | ok
  deriving Repr, DecidableEq

/-- Error of a single failed attempt (Go's `lastErr`). -/
inductive AttErr where
  | dialErr (k : Nat)
  | sftpErr (k : Nat)
  deriving Repr, DecidableEq

/-- Terminal error of `New`:
`wrapErrorf("failed to connect after %d attempts: %w", maxRetries+1, lastErr)`. -/
inductive NewErr where
  | wrapped (attempts : Nat) (last : AttErr)
  deriving Repr, DecidableEq

/-- Observable actions of the retry loop. -/
inductive NEvent where
  | dial (k : Nat)
  | closeSSH (k : Nat)
  | sleep (d : Nat)
  deriving Repr, DecidableEq

/-- The body of the `for attempt := 0; attempt <= maxRetries; attempt++` loop:
`b` gives each attempt's outcome, `k` is the current attempt, `fuel` the
number of attempts still allowed.  Returns the successful attempt (if
any), Go's `lastErr` when every executed attempt failed, and the trace. -/
def connectGo (b : Nat → Outcome) (d0 maxR : Nat) :
    Nat → Nat → Option Nat × Option AttErr × List NEvent
  | _, 0 => (none, none, [])
  | k, fuel + 1 =>
    match b k with
    | .ok => (some k, none, [.dial k])
    | .dialFail =>
      let sleeps := if k < maxR then [NEvent.sleep (d0 * 2 ^ k)] else []
      let (res, last, rest) := connectGo b d0 maxR (k + 1) fuel
      (res, some (last.getD (.dialErr k)), .dial k :: sleeps ++ rest)
    | .sftpFail =>
      let sleeps := if k < maxR then [NEvent.sleep (d0 * 2 ^ k)] else []
      let (res, last, rest) := connectGo b d0 maxR (k + 1) fuel
      (res, some (last.getD (.sftpErr k)), .dial k :: .closeSSH k :: sleeps ++ rest)

/-- Translation of `New`: apply the zero-value defaults for `MaxRetries` and
`RetryDelay`, run the retry loop, and on terminal failure wrap the last
error with the attempt count `maxRetries+1`. -/
def newConnect (b : Nat → Outcome) (cfgRetries cfgDelay : Nat) :
    Except NewErr Nat × List NEvent :=
  let maxR := if cfgRetries = 0 then 3 else cfgRetries
  let d0 := if cfgDelay = 0 then 1000 else cfgDelay
  match connectGo b d0 maxR 0 (maxR + 1) with
  | (some k, _, evs) => (.ok k, evs)
  | (none, some e, evs) => (.error (.wrapped (maxR + 1) e), evs)
  | (none, none, evs) => (.error (.wrapped (maxR + 1) (.dialErr 0)), evs)

/-- Number of connection attempts recorded in a trace. -/
def dialCount (evs : List NEvent) : Nat :=
  (evs.filter fun e => match e with | .dial _ => true | _ => false).length

/-! ### `File.Close` (src/sftpfile.go, lines 46-48; src/unnamed/part_009, lines 49-52)

The method is `return f.file.Close()`: pure delegation.  The underlying
transport handle is any implementation of `sftpFileInterface`; its close
behaviour is a function `b` from the number of closes already made to the
result of the next one. -/

structure CloseState where
  count : Nat
  deriving Repr, DecidableEq

/-- Error identity for a close result; only equality matters. -/
inductive CloseErr where
  | closed
  deriving Repr, DecidableEq

/-- Translation of `File.Close`: forward to the underlying handle's close and
return its result unchanged. -/
def fileClose (b : Nat → Option CloseErr) (s : CloseState) :
    Option CloseErr × CloseState :=
  (b s.count, { count := s.count + 1 })

/-! ### Authentication selection in `New` (src/sftpfs.go, lines 236-246) -/

/-- An `ssh.AuthMethod` as built by `New`. -/
inductive AuthMethod where
  | publicKeys (key : List Nat)
  | password (pw : List Nat)
  deriving Repr, DecidableEq

/-- Translation of the auth branch of `New`: a non-empty key is parsed
(`parseOk` is the oracle for `ssh.ParsePrivateKey`) and, when it parses,
the offered method list is exactly the public-key method; a parse failure
aborts `New` before any method is offered (`none`).  An empty key offers
exactly the password method. -/
def authMethods (key : List Nat) (password : List Nat) (parseOk : Bool) :
    Option (List AuthMethod) :=
  if key.length > 0 then
    if parseOk then some [.publicKeys key] else none
  else
    some [.password password]

/-- Error of attempt `k` of the retry loop, as `lastErr` records it. -/
def errAt (b : Nat → Outcome) (k : Nat) : AttErr :=
  match b k with
  | .sftpFail => .sftpErr k
  | _ => .dialErr k

/-! ## Order lemmas for the byte-wise comparison -/

theorem lexLt_asymm : ∀ a b : List Nat, lexLt a b = true → lexLt b a = false := by
  intro a
  induction a with
  | nil =>
    intro b h
    cases b with
    | nil => simp [lexLt] at h
    | cons y ys => simp [lexLt]
  | cons x xs ih =>
    intro b h
    cases b with
    | nil => simp [lexLt] at h
    | cons y ys =>
      simp only [lexLt] at h ⊢
      by_cases h1 : x < y
      · rw [if_neg (by omega : ¬ y < x), if_pos h1]
      · by_cases h2 : y < x
        · rw [if_neg h1, if_pos h2] at h
          exact absurd h (by simp)
        · rw [if_neg h1, if_neg h2] at h
          rw [if_neg h2, if_neg h1]
          exact ih ys h

theorem lexLt_trans_neg :
    ∀ a b c : List Nat, lexLt c a = true → lexLt b a = false → lexLt c b = true := by
  intro a
  induction a with
  | nil =>
    intro b c hc _
    cases c with
    | nil => simp [lexLt] at hc
    | cons z zs => simp [lexLt] at hc
  | cons x xs ih =>
    intro b c hc hb
    cases b with
    | nil => simp [lexLt] at hb
    | cons y ys =>
      cases c with
      | nil => simp [lexLt]
      | cons z zs =>
        simp only [lexLt] at hc hb ⊢
        have hyx : ¬ y < x := by
          intro hlt
          rw [if_pos hlt] at hb
          exact absurd hb (by simp)
        by_cases hzx : z < x
        · rw [if_pos (by omega : z < y)]
        · by_cases hxz : x < z
          · rw [if_neg hzx, if_pos hxz] at hc
            exact absurd hc (by simp)
          · rw [if_neg hzx, if_neg hxz] at hc
            by_cases hxy : x < y
            · rw [if_pos (by omega : z < y)]
            · rw [if_neg hyx, if_neg hxy] at hb
              rw [if_neg (by omega : ¬ z < y), if_neg (by omega : ¬ y < z)]
              exact ih ys zs hc hb

instance : IsTotal FileInfoM entryLe := by
  constructor
  intro a b
  unfold entryLe lexLe
  cases hv : lexLt b.name a.name
  · exact Or.inl rfl
  · exact Or.inr (lexLt_asymm _ _ hv)

instance : IsTrans FileInfoM entryLe := by
  constructor
  intro a b c hab hbc
  unfold entryLe lexLe at *
  cases hv : lexLt c.name a.name
  · rfl
  · have h1 := lexLt_trans_neg a.name b.name c.name hv hab
    rw [h1] at hbc
    exact absurd hbc (by decide)

/-! ## Claim theorems -/

/-- C5: for every directory, the server's List handler opens the directory,
reads all of its entries (a fresh captured handle's `Readdir(-1)` returns the
whole listing), and returns them sorted ascending by name in byte-wise
order: the result is a permutation of the entries that is sorted under the
byte-wise name order, and handler errors pass through. -/
theorem C5_handleList_sorted (entries : List FileInfoM) :
    handleList (.ok entries) = .ok (List.insertionSort entryLe entries) ∧
    (List.insertionSort entryLe entries).Perm entries ∧
    List.Sorted entryLe (List.insertionSort entryLe entries) ∧
    (readdir { dirEntries := entries, readdirPos := 0 } (-1)).1.1 = entries ∧
    (∀ e : FxErr, handleList (.error e) = .error e) := by
  refine ⟨rfl, List.perm_insertionSort _ _, List.sorted_insertionSort _ _, ?_, fun e => rfl⟩
  simp [readdir]

/-- C1: over a captured listing of `k` entries with cursor `p ≤ k`:
`Readdir(n)` with `n ≤ 0` returns the `k - p` remaining entries and moves
the cursor to `k`, and on any handle whose cursor already sits at the end
such a call returns an empty slice with no error; `Readdir(n)` with
`n > 0` returns the next `min(n, k - p)` entries and advances the cursor
by that amount, returning empty slice plus `io.EOF` exactly in the
exhausted case `p = k`. -/
theorem C1_readdir_cursor (f : DirHandle) (_h : f.readdirPos ≤ f.dirEntries.length) :
    (∀ n : Int, n ≤ 0 →
      readdir f n =
        ((f.dirEntries.drop f.readdirPos, none),
         { dirEntries := f.dirEntries, readdirPos := f.dirEntries.length }) ∧
      (f.dirEntries.drop f.readdirPos).length = f.dirEntries.length - f.readdirPos) ∧
    (∀ (g : DirHandle) (n : Int), g.readdirPos = g.dirEntries.length → n ≤ 0 →
      readdir g n = (([], none), g)) ∧
    (∀ n : Int, 0 < n →
      (readdir f n).1.1 =
        (f.dirEntries.drop f.readdirPos).take
          (min n.toNat (f.dirEntries.length - f.readdirPos)) ∧
      (readdir f n).1.1.length = min n.toNat (f.dirEntries.length - f.readdirPos) ∧
      (readdir f n).2.readdirPos =
        f.readdirPos + min n.toNat (f.dirEntries.length - f.readdirPos) ∧
      (readdir f n).2.dirEntries = f.dirEntries ∧
      (f.readdirPos = f.dirEntries.length → readdir f n = (([], some .eof), f)) ∧
      (f.readdirPos < f.dirEntries.length → (readdir f n).1.2 = none)) := by
  refine ⟨?_, ?_, ?_⟩
  · intro n hn
    constructor
    · simp [readdir, hn]
    · simp [List.length_drop]
  · intro g n hg hn
    obtain ⟨es, p⟩ := g
    simp at hg
    subst hg
    simp [readdir, hn, List.drop_length]
  · intro n hn
    have hn0 : ¬ n ≤ 0 := by omega
    by_cases hrem : f.dirEntries.length - f.readdirPos = 0
    · refine ⟨?_, ?_, ?_, ?_, fun _ => ?_, fun hlt => absurd hlt (by omega)⟩ <;>
        simp [readdir, hn0, hrem]
    · refine ⟨?_, ?_, ?_, ?_, fun hp => absurd hp (by omega), fun hlt => ?_⟩
      · simp [readdir, hn0, hrem]
      · simp [readdir, hn0, hrem, List.length_take, List.length_drop]
      · simp [readdir, hn0, hrem]
      · simp [readdir, hn0, hrem]
      · simp [readdir, hn0, hrem]

/-- Witness for C1 at a concrete handle: two entries, cursor 1, `Readdir(-1)`
returns the single remaining entry and moves the cursor to the end. -/
theorem C1_readdir_cursor_witness :
    (1 : Nat) ≤ ([⟨[97], false⟩, ⟨[98], false⟩] : List FileInfoM).length ∧
    readdir { dirEntries := [⟨[97], false⟩, ⟨[98], false⟩], readdirPos := 1 } (-1) =
      (([⟨[98], false⟩], none),
       { dirEntries := [⟨[97], false⟩, ⟨[98], false⟩], readdirPos := 2 }) := by
  refine ⟨by decide, ?_⟩
  have h := C1_readdir_cursor ⟨[⟨[97], false⟩, ⟨[98], false⟩], 1⟩ (by decide)
  exact (h.1 (-1) (by decide)).1

/-- C6: `ListAt` on a snapshot: an offset at or past the end yields zero
entries and end-of-file; otherwise the entries from the offset are copied
(up to the buffer length), and end-of-file is signalled exactly when the
buffer is not completely filled. -/
theorem C6_listAt_spec (entries : List FileInfoM) (bufLen offset : Nat) :
    (entries.length ≤ offset → listAt entries bufLen offset = (0, [], some .eof)) ∧
    (offset < entries.length →
      (listAt entries bufLen offset).2.1 = (entries.drop offset).take bufLen ∧
      (listAt entries bufLen offset).1 = min bufLen (entries.length - offset) ∧
      ((listAt entries bufLen offset).2.2 = some .eof ↔
        (listAt entries bufLen offset).1 < bufLen)) := by
  constructor
  · intro hle
    simp [listAt, hle]
  · intro hlt
    have hnle : ¬ entries.length ≤ offset := by omega
    have hsrc : (entries.drop offset).length = entries.length - offset :=
      List.length_drop offset entries
    refine ⟨?_, ?_, ?_⟩
    all_goals simp only [listAt, if_neg hnle]
    · split
      · rfl
      · rfl
    · split
      · simp [hsrc]
      · simp [hsrc]
    · split
      · rename_i hc
        simp only []
        rw [hsrc] at hc
        simp [hc]
      · rename_i hc
        simp only []
        rw [hsrc] at hc
        simp [hc]

/-- Witness for C6 at a concrete snapshot: three entries, buffer 5, offset 1
copies two entries (min 5 (3-1)). -/
theorem C6_listAt_spec_witness :
    1 < ([⟨[97], false⟩, ⟨[98], false⟩, ⟨[99], false⟩] : List FileInfoM).length ∧
    (listAt [⟨[97], false⟩, ⟨[98], false⟩, ⟨[99], false⟩] 5 1).1 = min 5 (3 - 1) := by
  refine ⟨by decide, ?_⟩
  exact ((C6_listAt_spec [⟨[97], false⟩, ⟨[98], false⟩, ⟨[99], false⟩] 5 1).2
    (by decide)).2.1

/-- Counterexample for C4: a request with the read, write and APPEND bits all
set produces flags `O_RDWR|O_CREATE`, which do not contain the append
flag, contradicting the claim that the APPEND bit always adds it. -/
theorem C4_filewrite_flags_counterexample :
    (Pflags.mk true true true false false).append = true ∧
    filewriteFlags ⟨true, true, true, false, false⟩ &&& O_APPEND = 0 ∧
    filewriteFlags ⟨true, true, true, false, false⟩ = O_RDWR ||| O_CREATE := by
  decide

/-- C4 (amended): when both read and write bits are set, `Filewrite` opens
with exactly read-write plus create, discarding any append/truncate/
exclusive bits; otherwise it opens write-only plus create together with the
append, truncate and exclusive flags requested by the protocol bits. -/
theorem C4_filewrite_flags (p : Pflags) :
    (p.read = true ∧ p.write = true →
      filewriteFlags p = O_RDWR ||| O_CREATE) ∧
    (¬(p.read = true ∧ p.write = true) →
      filewriteFlags p =
        O_WRONLY ||| O_CREATE
          ||| (if p.append then O_APPEND else 0)
          ||| (if p.trunc then O_TRUNC else 0)
          ||| (if p.excl then O_EXCL else 0)) := by
  obtain ⟨r, w, a, t, e⟩ := p
  cases r <;> cases w <;> cases a <;> cases t <;> cases e <;> exact ⟨by decide, by decide⟩

/-- Witness for C4 at a concrete request: append-only write request keeps the
append flag alongside write-only and create. -/
theorem C4_filewrite_flags_witness :
    ¬((false : Bool) = true ∧ (false : Bool) = true) ∧
    filewriteFlags ⟨false, false, true, false, false⟩ =
      O_WRONLY ||| O_CREATE ||| (if true then O_APPEND else 0)
        ||| (if false then O_TRUNC else 0) ||| (if false then O_EXCL else 0) := by
  exact ⟨by decide, (C4_filewrite_flags ⟨false, false, true, false, false⟩).2 (by decide)⟩

/-- C2: evaluation of `RemoveAll` at the failing input and around it.  On a
path that does not exist the code returns the wrapped stat error instead
of success (the claim, the spec's remove-idempotence property, and the
repository's own test-harness wrapper all expect `nil`); an existing file
is removed with a single non-recursive `Remove`; an existing directory is
removed depth-first post-order followed by the directory itself. -/
theorem C2_removeAll_missing_path :
    removeAll [47, 110, 111, 112, 101] none =
      .error (.statErr [47, 110, 111, 112, 101]) ∧
    removeAll [47, 102] (some .file) = .ok [[47, 102]] ∧
    removeAll [47, 100]
        (some (.dir [([97], .file), ([98], .dir [([99], .file)])])) =
      .ok [[47, 100, 47, 97], [47, 100, 47, 98, 47, 99], [47, 100, 47, 98], [47, 100]] := by
  exact ⟨rfl, rfl, rfl⟩

/-- Helper: on a non-empty byte string that contains no slash, Go's
`path.Base` is the identity. -/
theorem pathBase_no_slash (t : List Nat) (hne : t ≠ []) (hns : ∀ c ∈ t, c ≠ 47) :
    pathBase t = t := by
  unfold pathBase
  rw [if_neg (by simpa [List.isEmpty_iff] using hne)]
  have h1 : t.reverse.dropWhile (fun c => c = 47) = t.reverse := by
    rw [List.dropWhile_eq_self_iff]
    intro hl
    have hm : t.reverse.get ⟨0, hl⟩ ∈ t := by
      rw [← List.mem_reverse]
      exact List.get_mem _ _ _
    simpa using hns _ hm
  have h2 : t.reverse.takeWhile (fun c => c ≠ 47) = t.reverse := by
    rw [List.takeWhile_eq_self_iff]
    intro x hx
    simpa using hns x (List.mem_reverse.mp hx)
  simp only [h1, List.reverse_reverse, h2]
  rw [if_neg (by simpa [List.isEmpty_iff] using hne)]

/-- Counterexample for C8: with symlink capability and recorded target
`"/tmp/x"`, the handler returns one synthetic entry, but that entry's
reported name is `path.Base` of the target — `"x"` — not the target, so
the listing does not encode the link target and `readlink(L) == T` fails
for any target containing a slash. -/
theorem C8_handleReadlink_counterexample :
    handleReadlink true (.ok [47, 116, 109, 112, 47, 120]) =
      .ok [{ name := [47, 116, 109, 112, 47, 120] }] ∧
    LinkInfo.goName { name := [47, 116, 109, 112, 47, 120] } = [120] ∧
    ([120] : List Nat) ≠ [47, 116, 109, 112, 47, 120] := by
  exact ⟨rfl, by decide, by decide⟩

/-- C8 (amended): with symlink capability the handler returns exactly one
synthetic entry whose stored target is the backing `Readlink` result and
whose reported name is the final path component (`path.Base`) of that
target — equal to the target exactly for slash-free names — with mode
`ModeSymlink|0777`; without the capability it returns the
unsupported-operation error, and backing errors pass through. -/
theorem C8_handleReadlink_spec (target : List Nat) (res : Except FxErr (List Nat)) :
    handleReadlink false res = .error .unsupported ∧
    handleReadlink true (.ok target) = .ok [{ name := target }] ∧
    LinkInfo.goName { name := target } = pathBase target ∧
    LinkInfo.goMode { name := target } = ModeSymlink ||| 0o777 ∧
    (target ≠ [] → (∀ c ∈ target, c ≠ 47) →
      LinkInfo.goName { name := target } = target) ∧
    (∀ e, handleReadlink true (.error e) = .error e) := by
  refine ⟨rfl, rfl, rfl, rfl, fun hne hns => ?_, fun e => rfl⟩
  exact pathBase_no_slash target hne hns

/-- Witness for C8 at a concrete slash-free target `"x"`: the reported name
equals the target. -/
theorem C8_handleReadlink_spec_witness :
    (([120] : List Nat) ≠ []) ∧
    LinkInfo.goName { name := [120] } = [120] := by
  refine ⟨by decide, ?_⟩
  exact (C8_handleReadlink_spec [120] (.ok [120])).2.2.2.2.1 (by decide) (by decide)

/-- Counterexample for C9: `File.Close` only forwards to the underlying
transport handle's close; for a handle whose transport close succeeds
first and fails afterwards, the second `Close` does not return the first
close's result, so the wrapper is not idempotent. -/
theorem C9_close_counterexample :
    (fileClose (fun n => if n = 0 then none else some .closed) ⟨0⟩).1 = none ∧
    (fileClose (fun n => if n = 0 then none else some .closed)
        (fileClose (fun n => if n = 0 then none else some .closed) ⟨0⟩).2).1 =
      some .closed ∧
    some CloseErr.closed ≠ (none : Option CloseErr) := by
  exact ⟨rfl, rfl, by decide⟩

/-- C9 (amended): `Close` forwards every call to the underlying transport
handle's close, returning its result unchanged and adding no state beyond
the transport's own; when the transport's close behaviour is idempotent
(same result on every call), a second `Close` returns the first close's
error. -/
theorem C9_close_delegates (b : Nat → Option CloseErr) (s : CloseState)
    (hb : ∀ n, b n = b 0) :
    (fileClose b (fileClose b s).2).1 = (fileClose b s).1 ∧
    (fileClose b s).1 = b s.count ∧
    (fileClose b s).2.count = s.count + 1 := by
  refine ⟨?_, rfl, rfl⟩
  show b (s.count + 1) = b s.count
  rw [hb (s.count + 1), hb s.count]

/-- Witness for C9 with the always-successful transport close: both closes
return no error. -/
theorem C9_close_delegates_witness :
    (∀ n : Nat, (fun _ => (none : Option CloseErr)) n = (fun _ => (none : Option CloseErr)) 0) ∧
    (fileClose (fun _ => (none : Option CloseErr))
        (fileClose (fun _ => (none : Option CloseErr)) ⟨0⟩).2).1 =
      (fileClose (fun _ => (none : Option CloseErr)) ⟨0⟩).1 := by
  exact ⟨fun n => rfl, (C9_close_delegates (fun _ => none) ⟨0⟩ (fun n => rfl)).1⟩

/-- C10: the convenience constructor's auth selection is mutually exclusive:
with a non-empty key only the public-key method built from the key is ever
offered (or parsing aborts before offering anything), and the password
method is offered exactly when the key is empty. -/
theorem C10_auth_selection (key pw : List Nat) (parseOk : Bool) :
    (key ≠ [] →
      authMethods key pw parseOk = none ∨
      authMethods key pw parseOk = some [.publicKeys key]) ∧
    (key ≠ [] → ∀ ms, authMethods key pw parseOk = some ms →
      AuthMethod.password pw ∉ ms) ∧
    ((∃ ms, authMethods key pw parseOk = some ms ∧ AuthMethod.password pw ∈ ms) ↔
      key = []) := by
  refine ⟨?_, ?_, ?_⟩
  · intro hk
    cases key with
    | nil => exact absurd rfl hk
    | cons a as =>
      cases parseOk with
      | false => exact Or.inl (by simp [authMethods])
      | true => exact Or.inr (by simp [authMethods])
  · intro hk ms hms
    cases key with
    | nil => exact absurd rfl hk
    | cons a as =>
      cases parseOk with
      | false => simp [authMethods] at hms
      | true =>
        simp [authMethods] at hms
        subst hms
        simp
  · constructor
    · rintro ⟨ms, hms, hmem⟩
      cases key with
      | nil => rfl
      | cons a as =>
        cases parseOk with
        | false => simp [authMethods] at hms
        | true =>
          simp [authMethods] at hms
          subst hms
          simp at hmem
    · intro hk
      subst hk
      exact ⟨[.password pw], by simp [authMethods], by simp⟩

/-- Witness for C10 with a concrete one-byte key and password: only the
public-key method is offered. -/
theorem C10_auth_selection_witness :
    (([1] : List Nat) ≠ []) ∧
    AuthMethod.password [2] ∉ [AuthMethod.publicKeys [1]] := by
  refine ⟨by decide, ?_⟩
  exact (C10_auth_selection [1] [2] true).2.1 (by decide) [AuthMethod.publicKeys [1]] rfl

/-- C3: when the flag carries CREATE, a successful remote open is followed by
a `chmod(name, perm)`; if that chmod fails the just-opened handle is closed
(the trace ends with the close and no handle stays open) and the call
returns the error; and whenever the call returns success the remote mode
of the file is `perm`. -/
theorem C3_openfile_create_chmod (r : RemoteState) (name : List Nat)
    (flag perm : Nat) (hc : flag &&& O_CREATE ≠ 0) :
    (r.openOk = true →
      CEvent.chmodCall name perm ∈ (fsOpenFile r name flag perm).2.2) ∧
    (r.openOk = true → r.chmodOk = false →
      (fsOpenFile r name flag perm).1 = none ∧
      (fsOpenFile r name flag perm).2.2 =
        [.openCall name flag, .chmodCall name perm, .closeCall] ∧
      (fsOpenFile r name flag perm).2.1.handles = r.handles) ∧
    (∀ hnd, (fsOpenFile r name flag perm).1 = some hnd →
      (fsOpenFile r name flag perm).2.1.modes name = perm) := by
  refine ⟨?_, ?_, ?_⟩
  · intro hopen
    simp [fsOpenFile, hopen, hc, remoteChmod]
    cases hcm : r.chmodOk <;> simp
  · intro hopen hcm
    simp [fsOpenFile, hopen, hc, remoteChmod, hcm]
  · intro hnd hres
    cases hopen : r.openOk with
    | false => simp [fsOpenFile, hopen] at hres
    | true =>
      cases hcm : r.chmodOk with
      | false => simp [fsOpenFile, hopen, hc, remoteChmod, hcm] at hres
      | true => simp [fsOpenFile, hopen, hc, remoteChmod, hcm]

/-- Witness for C3: create flag set, open succeeds, chmod fails: the call
returns no handle and the trace is open, chmod, close. -/
theorem C3_openfile_create_chmod_witness :
    (O_CREATE &&& O_CREATE ≠ 0) ∧
    ((true : Bool) = true) ∧
    ((false : Bool) = false) ∧
    (fsOpenFile ⟨true, false, fun _ => 0, 0⟩ [97] O_CREATE 420).1 = none ∧
    (fsOpenFile ⟨true, false, fun _ => 0, 0⟩ [97] O_CREATE 420).2.2 =
      [.openCall [97] O_CREATE, .chmodCall [97] 420, .closeCall] ∧
    (fsOpenFile ⟨true, false, fun _ => 0, 0⟩ [97] O_CREATE 420).2.1.handles = 0 := by
  refine ⟨by decide, rfl, rfl, ?_⟩
  exact (C3_openfile_create_chmod ⟨true, false, fun _ => 0, 0⟩ [97] O_CREATE 420
    (by decide)).2.1 rfl rfl

/-! ## Lemmas about the retry loop -/

theorem dialCount_nil : dialCount [] = 0 := rfl

theorem dialCount_cons_dial (k : Nat) (evs : List NEvent) :
    dialCount (.dial k :: evs) = dialCount evs + 1 := by
  simp [dialCount, List.filter]

theorem dialCount_cons_closeSSH (k : Nat) (evs : List NEvent) :
    dialCount (.closeSSH k :: evs) = dialCount evs := by
  simp [dialCount, List.filter]

theorem dialCount_cons_sleep (d : Nat) (evs : List NEvent) :
    dialCount (.sleep d :: evs) = dialCount evs := by
  simp [dialCount, List.filter]

theorem dialCount_append (a c : List NEvent) :
    dialCount (a ++ c) = dialCount a + dialCount c := by
  simp [dialCount, List.filter_append]

theorem dialCount_sleeps (d0 maxR k : Nat) :
    dialCount (if k < maxR then [NEvent.sleep (d0 * 2 ^ k)] else []) = 0 := by
  split <;> simp [dialCount, List.filter]

theorem connectGo_zero (b : Nat → Outcome) (d0 maxR k : Nat) :
    connectGo b d0 maxR k 0 = (none, none, []) := rfl

theorem connectGo_step_ok (b : Nat → Outcome) (d0 maxR k fuel : Nat)
    (hb : b k = .ok) :
    connectGo b d0 maxR k (fuel + 1) = (some k, none, [.dial k]) := by
  simp only [connectGo, hb]

theorem connectGo_step_dialFail (b : Nat → Outcome) (d0 maxR k fuel : Nat)
    (hb : b k = .dialFail) :
    connectGo b d0 maxR k (fuel + 1) =
      ((connectGo b d0 maxR (k + 1) fuel).1,
       some ((connectGo b d0 maxR (k + 1) fuel).2.1.getD (.dialErr k)),
       (NEvent.dial k :: if k < maxR then [NEvent.sleep (d0 * 2 ^ k)] else []) ++
         (connectGo b d0 maxR (k + 1) fuel).2.2) := by
  simp only [connectGo, hb]

theorem connectGo_step_sftpFail (b : Nat → Outcome) (d0 maxR k fuel : Nat)
    (hb : b k = .sftpFail) :
    connectGo b d0 maxR k (fuel + 1) =
      ((connectGo b d0 maxR (k + 1) fuel).1,
       some ((connectGo b d0 maxR (k + 1) fuel).2.1.getD (.sftpErr k)),
       (NEvent.dial k :: NEvent.closeSSH k ::
          (if k < maxR then [NEvent.sleep (d0 * 2 ^ k)] else [])) ++
         (connectGo b d0 maxR (k + 1) fuel).2.2) := by
  simp only [connectGo, hb]

theorem connectGo_dials_le (b : Nat → Outcome) (d0 maxR : Nat) :
    ∀ fuel k, dialCount (connectGo b d0 maxR k fuel).2.2 ≤ fuel := by
  intro fuel
  induction fuel with
  | zero => intro k; simp [connectGo_zero, dialCount_nil]
  | succ n ih =>
    intro k
    cases hb : b k with
    | ok =>
      rw [connectGo_step_ok b d0 maxR k n hb]
      simp [dialCount_cons_dial, dialCount_nil]
    | dialFail =>
      rw [connectGo_step_dialFail b d0 maxR k n hb]
      simp only [dialCount_append, dialCount_cons_dial, dialCount_sleeps]
      have := ih (k + 1)
      omega
    | sftpFail =>
      rw [connectGo_step_sftpFail b d0 maxR k n hb]
      simp only [dialCount_append, dialCount_cons_dial, dialCount_cons_closeSSH,
        dialCount_sleeps]
      have := ih (k + 1)
      omega

theorem connectGo_success (b : Nat → Outcome) (d0 maxR : Nat) :
    ∀ fuel k j, k ≤ j → j < k + fuel → b j = .ok →
      (∀ i, k ≤ i → i < j → b i ≠ .ok) →
      (connectGo b d0 maxR k fuel).1 = some j ∧
      dialCount (connectGo b d0 maxR k fuel).2.2 = j + 1 - k := by
  intro fuel
  induction fuel with
  | zero => intro k j h1 h2 _ _; omega
  | succ n ih =>
    intro k j h1 h2 hok hmin
    cases hb : b k with
    | ok =>
      have hkj : j = k := by
        by_contra hne
        exact hmin k le_rfl (by omega) hb
      subst hkj
      rw [connectGo_step_ok b d0 maxR j n hb]
      simp [dialCount_cons_dial, dialCount_nil]
    | dialFail =>
      have hkj : k < j := by
        rcases Nat.lt_or_ge k j with h | h
        · exact h
        · have he : j = k := by omega
          rw [he, hb] at hok
          exact absurd hok (by simp)
      have htail := ih (k + 1) j (by omega) (by omega) hok
        (fun i hi1 hi2 => hmin i (by omega) hi2)
      rw [connectGo_step_dialFail b d0 maxR k n hb]
      refine ⟨htail.1, ?_⟩
      simp only [dialCount_append, dialCount_cons_dial, dialCount_sleeps]
      rw [htail.2]
      omega
    | sftpFail =>
      have hkj : k < j := by
        rcases Nat.lt_or_ge k j with h | h
        · exact h
        · have he : j = k := by omega
          rw [he, hb] at hok
          exact absurd hok (by simp)
      have htail := ih (k + 1) j (by omega) (by omega) hok
        (fun i hi1 hi2 => hmin i (by omega) hi2)
      rw [connectGo_step_sftpFail b d0 maxR k n hb]
      refine ⟨htail.1, ?_⟩
      simp only [dialCount_append, dialCount_cons_dial, dialCount_cons_closeSSH,
        dialCount_sleeps]
      rw [htail.2]
      omega

theorem connectGo_close_mem (b : Nat → Outcome) (d0 maxR : Nat) :
    ∀ fuel k j, k ≤ j → j < k + fuel → b j = .sftpFail →
      (∀ i, k ≤ i → i < j → b i ≠ .ok) →
      NEvent.closeSSH j ∈ (connectGo b d0 maxR k fuel).2.2 := by
  intro fuel
  induction fuel with
  | zero => intro k j h1 h2 _ _; omega
  | succ n ih =>
    intro k j h1 h2 hsf hmin
    cases hb : b k with
    | ok =>
      have hkj : j ≠ k := by
        intro he
        rw [he, hb] at hsf
        exact absurd hsf (by simp)
      exact absurd hb (hmin k le_rfl (by omega))
    | dialFail =>
      have hkj : k < j := by
        rcases Nat.lt_or_ge k j with h | h
        · exact h
        · have he : j = k := by omega
          rw [he, hb] at hsf
          exact absurd hsf (by simp)
      have htail := ih (k + 1) j (by omega) (by omega) hsf
        (fun i hi1 hi2 => hmin i (by omega) hi2)
      rw [connectGo_step_dialFail b d0 maxR k n hb]
      exact List.mem_append.mpr (Or.inr htail)
    | sftpFail =>
      by_cases hkj : j = k
      · subst hkj
        rw [connectGo_step_sftpFail b d0 maxR j n hb]
        exact List.mem_append.mpr (Or.inl (by simp))
      · have hlt : k < j := by omega
        have htail := ih (k + 1) j (by omega) (by omega) hsf
          (fun i hi1 hi2 => hmin i (by omega) hi2)
        rw [connectGo_step_sftpFail b d0 maxR k n hb]
        exact List.mem_append.mpr (Or.inr htail)

theorem connectGo_sleep_mem (b : Nat → Outcome) (d0 maxR : Nat) :
    ∀ fuel k j, k ≤ j → j < k + fuel → j < maxR → b j ≠ .ok →
      (∀ i, k ≤ i → i < j → b i ≠ .ok) →
      NEvent.sleep (d0 * 2 ^ j) ∈ (connectGo b d0 maxR k fuel).2.2 := by
  intro fuel
  induction fuel with
  | zero => intro k j h1 h2 _ _ _; omega
  | succ n ih =>
    intro k j h1 h2 hjR hfail hmin
    cases hb : b k with
    | ok =>
      have hkj : j ≠ k := fun he => hfail (he ▸ hb)
      exact absurd hb (hmin k le_rfl (by omega))
    | dialFail =>
      by_cases hkj : j = k
      · subst hkj
        rw [connectGo_step_dialFail b d0 maxR j n hb]
        refine List.mem_append.mpr (Or.inl ?_)
        rw [if_pos hjR]
        simp
      · have hlt : k < j := by omega
        have htail := ih (k + 1) j (by omega) (by omega) hjR hfail
          (fun i hi1 hi2 => hmin i (by omega) hi2)
        rw [connectGo_step_dialFail b d0 maxR k n hb]
        exact List.mem_append.mpr (Or.inr htail)
    | sftpFail =>
      by_cases hkj : j = k
      · subst hkj
        rw [connectGo_step_sftpFail b d0 maxR j n hb]
        refine List.mem_append.mpr (Or.inl ?_)
        rw [if_pos hjR]
        simp
      · have hlt : k < j := by omega
        have htail := ih (k + 1) j (by omega) (by omega) hjR hfail
          (fun i hi1 hi2 => hmin i (by omega) hi2)
        rw [connectGo_step_sftpFail b d0 maxR k n hb]
        exact List.mem_append.mpr (Or.inr htail)

theorem connectGo_all_fail (b : Nat → Outcome) (d0 maxR : Nat) :
    ∀ fuel k, 0 < fuel → (∀ i, k ≤ i → i < k + fuel → b i ≠ .ok) →
      (connectGo b d0 maxR k fuel).1 = none ∧
      (connectGo b d0 maxR k fuel).2.1 = some (errAt b (k + fuel - 1)) := by
  intro fuel
  induction fuel with
  | zero => intro k h _; omega
  | succ n ih =>
    intro k _ hfail
    cases n with
    | zero =>
      cases hb : b k with
      | ok => exact absurd hb (hfail k le_rfl (by omega))
      | dialFail =>
        rw [connectGo_step_dialFail b d0 maxR k 0 hb]
        simp [connectGo_zero, errAt, hb]
      | sftpFail =>
        rw [connectGo_step_sftpFail b d0 maxR k 0 hb]
        simp [connectGo_zero, errAt, hb]
    | succ m =>
      have htail := ih (k + 1) (by omega)
        (fun i hi1 hi2 => hfail i (by omega) (by omega))
      have harg : k + 1 + (m + 1) - 1 = k + (m + 1 + 1) - 1 := by omega
      cases hb : b k with
      | ok => exact absurd hb (hfail k le_rfl (by omega))
      | dialFail =>
        rw [connectGo_step_dialFail b d0 maxR k (m + 1) hb]
        refine ⟨htail.1, ?_⟩
        rw [htail.2, harg]
        simp
      | sftpFail =>
        rw [connectGo_step_sftpFail b d0 maxR k (m + 1) hb]
        refine ⟨htail.1, ?_⟩
        rw [htail.2, harg]
        simp

/-- Counterexample for C7: with `MaxRetries = 0` in the configuration (a
"max retries R = 0" configuration, allowed by the claim's `R >= 0`) and a
dial that always fails, `New` replaces the zero by the default 3 and makes
4 connection attempts, not the claimed at most `R + 1 = 1`. -/
theorem C7_new_retry_counterexample :
    dialCount (newConnect (fun _ => .dialFail) 0 5).2 = 4 ∧ ¬(4 ≤ 0 + 1) := by
  exact ⟨rfl, by decide⟩

/-- C7 (amended): for a configuration with `MaxRetries = R ≥ 1` and
`RetryDelay = d0 ≥ 1` (a configured 0 is replaced by the defaults 3
retries and 1s delay), `New` makes at most `R+1` connection attempts;
it stops at the first successful attempt; an executed attempt that fails
at SFTP-subsystem creation closes the SSH connection; an executed failed
attempt `k` with another attempt remaining sleeps `d0 * 2^k`; and when
every attempt fails the result is the last attempt's error wrapped with
the attempt count `R+1`. -/
theorem C7_new_retry (b : Nat → Outcome) (R d0 : Nat) (hR : 1 ≤ R) (hd : 1 ≤ d0) :
    dialCount (newConnect b R d0).2 ≤ R + 1 ∧
    (∀ k, k ≤ R → b k = .ok → (∀ j, j < k → b j ≠ .ok) →
      (newConnect b R d0).1 = .ok k ∧ dialCount (newConnect b R d0).2 = k + 1) ∧
    (∀ k, k ≤ R → b k = .sftpFail → (∀ j, j < k → b j ≠ .ok) →
      NEvent.closeSSH k ∈ (newConnect b R d0).2) ∧
    (∀ k, k < R → b k ≠ .ok → (∀ j, j < k → b j ≠ .ok) →
      NEvent.sleep (d0 * 2 ^ k) ∈ (newConnect b R d0).2) ∧
    ((∀ k, k ≤ R → b k ≠ .ok) →
      (newConnect b R d0).1 = .error (.wrapped (R + 1) (errAt b R))) := by
  have hR0 : ¬ R = 0 := by omega
  have hd0 : ¬ d0 = 0 := by omega
  have htrace : (newConnect b R d0).2 = (connectGo b d0 R 0 (R + 1)).2.2 := by
    simp only [newConnect, if_neg hR0, if_neg hd0]
    rcases hgo : connectGo b d0 R 0 (R + 1) with ⟨res, last, evs⟩
    cases res with
    | some k => rfl
    | none =>
      cases last with
      | some e => rfl
      | none => rfl
  refine ⟨?_, ?_, ?_, ?_, ?_⟩
  · rw [htrace]
    exact connectGo_dials_le b d0 R (R + 1) 0
  · intro k hk hok hmin
    have hgo := connectGo_success b d0 R (R + 1) 0 k (by omega) (by omega) hok
      (fun i _ hi2 => hmin i hi2)
    constructor
    · simp only [newConnect, if_neg hR0, if_neg hd0]
      rcases hgoeq : connectGo b d0 R 0 (R + 1) with ⟨res, last, evs⟩
      rw [hgoeq] at hgo
      simp only at hgo
      rw [hgo.1]
    · rw [htrace, hgo.2]
      omega
  · intro k hk hsf hmin
    rw [htrace]
    exact connectGo_close_mem b d0 R (R + 1) 0 k (by omega) (by omega) hsf
      (fun i _ hi2 => hmin i hi2)
  · intro k hk hfail hmin
    rw [htrace]
    exact connectGo_sleep_mem b d0 R (R + 1) 0 k (by omega) (by omega) hk hfail
      (fun i _ hi2 => hmin i hi2)
  · intro hfail
    have hgo := connectGo_all_fail b d0 R (R + 1) 0 (by omega)
      (fun i _ hi2 => hfail i (by omega))
    have harg : 0 + (R + 1) - 1 = R := by omega
    rw [harg] at hgo
    simp only [newConnect, if_neg hR0, if_neg hd0]
    rcases hgoeq : connectGo b d0 R 0 (R + 1) with ⟨res, last, evs⟩
    rw [hgoeq] at hgo
    simp only at hgo
    obtain ⟨hres, hlast⟩ := hgo
    subst hres
    subst hlast
    rfl

/-- Witness for C7 with two retries, delay 1, and a connection that fails
once then succeeds: the result is success at attempt 1 after 2 dials. -/
theorem C7_new_retry_witness :
    (1 : Nat) ≤ 2 ∧ (1 : Nat) ≤ 1 ∧
    (newConnect (fun k => if k = 1 then .ok else .dialFail) 2 1).1 = .ok 1 ∧
    dialCount (newConnect (fun k => if k = 1 then .ok else .dialFail) 2 1).2 = 1 + 1 := by
  refine ⟨by decide, by decide, ?_⟩
  have h := C7_new_retry (fun k => if k = 1 then .ok else .dialFail) 2 1
    (by decide) (by decide)
  exact h.2.1 1 (by decide) (by decide)
    (fun j hj => by
      have hj0 : j = 0 := by omega
      subst hj0
      decide)

end Sftpfs
